import Mathlib

/-!
Verification of the `use-context` hierarchical state store.

The engine in `src/useContext.ts` (latest variant) keeps two process-wide
weak maps: `contexts : Context -> Map<Hook, value>` and
`parents : Context -> Context`.  We embed object identity by `Nat` ids:
both context objects and hook (initializer) functions are identified by
ids, and the two weak maps become association lists over ids.  Hook
functions are embedded as `Hook`: an id plus a behaviour
`fn : Nat -> α -> Except E V` (the initializer may fail, modelling a
thrown exception).  A `log` field records each invocation of an
initializer (instrumentation used to express "H is invoked at most
once"); the source operations never read it.
-/

namespace UseCtx

/-- Association-list lookup, modelling `Map.get` / `WeakMap.get`. -/
def alookup : List (Nat × β) → Nat → Option β
  | [], _ => none
  | (k, v) :: rest, key => if k = key then some v else alookup rest key

/-- Association-list update, modelling `Map.set` / `WeakMap.set`. -/
def ainsert (key : Nat) (val : β) : List (Nat × β) → List (Nat × β)
  | [] => [(key, val)]
  | (k, v) :: rest =>
      if k = key then (key, val) :: rest else (k, v) :: ainsert key val rest

/-- `Map.has`. -/
def containsKey (l : List (Nat × β)) (key : Nat) : Bool :=
  (alookup l key).isSome

/-- A hook / initializer function: its reference identity `hid` plus its
behaviour. `fn c a` models calling the function with context `c` and
extra arguments `a`; a `.error` result models a thrown exception. -/
structure Hook (α V E : Type) where
  hid : Nat
  fn : Nat → α → Except E V

/-- The per-context states map `Map<Hook, value>`, keyed by hook id. -/
abbrev StateMap (V : Type) := List (Nat × V)

/-- The global mutable state of the module: the `contexts` weak map, the
`parents` weak map, and an instrumentation log of initializer
invocations (most recent first). -/
structure World (V : Type) where
  contexts : List (Nat × StateMap V)
  parents : List (Nat × Nat)
  log : List Nat

/-- Errors thrown by the engine, plus `user e` for an exception thrown by
an initializer and propagated through `init`/`use`. -/
inductive Err (E : Type) where
  | notInit
  | sameCtx
  | inUse
  | user (e : E)
deriving DecidableEq

/-- The message of each engine-thrown `Error`. -/
def Err.message : Err E → String
  | .notInit => "Not yet initialized"
  | .sameCtx => "The parent context and the forked context cannot be the same"
  | .inUse => "The forked context is already in use"
  | .user _ => ""

/-- `getStates`, fuelled.  The source recurses along the parent chain:
check the context's own map for the initializer; if absent, follow the
parent link and repeat.  The fuel only bounds the recursion depth; for
any world whose parent chain from `c` terminates, `w.parents.length + 1`
steps suffice (each step consumes a distinct `parents` entry).  The
source returns the found `Map` object; since every context owns a
distinct `Map` object, we return the owning context id together with the
map contents (object identity of the map = identity of its owner).
The optional-chaining test `states?.has(initializer)` treats an absent
map exactly like an empty one, so the embedding reads the own map
through `Option.getD []`; the found branch can only fire when the map
exists, because the empty map contains no key. -/
def getStatesF : Nat → World V → Nat → Nat → Option (Nat × StateMap V)
  | 0, _, _, _ => none
  | Nat.succ n, w, c, hid =>
    if containsKey ((alookup w.contexts c).getD []) hid then
      some (c, (alookup w.contexts c).getD [])
    else
      match alookup w.parents c with
      | none => none
      | some p => getStatesF n w p hid

/-- `getStates(context, initializer)` with sufficient fuel. -/
def getStates (w : World V) (c hid : Nat) : Option (Nat × StateMap V) :=
  getStatesF (w.parents.length + 1) w c hid

/-- `isContext`: `contexts.has(value)`. -/
def isContext (w : World V) (c : Nat) : Bool :=
  (alookup w.contexts c).isSome

/-- `isForked`: `parents.has(context)`. -/
def isForked (w : World V) (c : Nat) : Bool :=
  (alookup w.parents c).isSome

/-- `isUsed`: `!!getStates(context, initializer)`. -/
def isUsed (w : World V) (c : Nat) (h : Hook α V E) : Bool :=
  (getStates w c h.hid).isSome

/-- The first phase of `init`: if the context has no states map yet,
create an empty one and register it (`contexts.set(context, states)`).
Note this happens before the initializer is invoked. -/
def registerIfAbsent (w : World V) (c : Nat) : World V :=
  match alookup w.contexts c with
  | some _ => w
  | none => { w with contexts := ainsert c [] w.contexts }

/-- `init(context, initializer, ...args)`: ensure the context's own
states map exists, invoke the initializer (logged), and on success store
the value under the initializer in the context's own map.  If the
initializer throws, the exception propagates and no entry is written
(but the empty states map registration already happened). -/
def init (c : Nat) (h : Hook α V E) (a : α) (w : World V) :
    Except (Err E) V × World V :=
  let w1 := registerIfAbsent w c
  let w2 := { w1 with log := h.hid :: w1.log }
  match h.fn c a with
  | .error e => (.error (.user e), w2)
  | .ok v =>
      (.ok v,
       { w2 with
         contexts :=
           ainsert c (ainsert h.hid v ((alookup w2.contexts c).getD [])) w2.contexts })

/-- `use(context, initializer, ...args)`: return the reachable value if
one exists, else fall through to `init`.  The source casts
`states.get(initializer) as R`; the entry is present whenever
`getStates` found the map, and we model the cast by `Option.getD`. -/
def use [Inhabited V] (c : Nat) (h : Hook α V E) (a : α) (w : World V) :
    Except (Err E) V × World V :=
  match getStates w c h.hid with
  | none => init c h a w
  | some (_, s) => (.ok ((alookup s h.hid).getD default), w)

/-- `get(context, initializer)`: return the reachable value, or throw
"Not yet initialized". -/
def get [Inhabited V] (c : Nat) (h : Hook α V E) (w : World V) :
    Except (Err E) V × World V :=
  match getStates w c h.hid with
  | none => (.error .notInit, w)
  | some (_, s) => (.ok ((alookup s h.hid).getD default), w)

/-- `fork(context, forkedContext)`: guard against self-fork and reuse,
lazily register the parent, then give the fork an empty own map and a
parent link. -/
def fork (c f : Nat) (w : World V) : Except (Err E) Nat × World V :=
  if c = f then (.error .sameCtx, w)
  else if isContext w f then (.error .inUse, w)
  else
    let w1 :=
      if isContext w c then w
      else { w with contexts := ainsert c [] w.contexts }
    let w2 := { w1 with contexts := ainsert f [] w1.contexts }
    let w3 := { w2 with parents := ainsert f c w2.parents }
    (.ok f, w3)

/-- `isInherited(context, initializer)`: false when nothing is reachable;
otherwise the source compares the found `Map` object with
`contexts.get(context)` by reference, which (maps being per-context)
holds exactly when the owner of the found map differs from `context`. -/
def isInherited (w : World V) (c : Nat) (h : Hook α V E) : Bool :=
  match getStates w c h.hid with
  | none => false
  | some (x, _) => decide (x ≠ c)

/-- `clone(func)`: a new function object (fresh identity `i`, supplied by
the allocator) with identical behaviour. -/
def clone (i : Nat) (h : Hook α V E) : Hook α V E :=
  ⟨i, fun c a => h.fn c a⟩

/-- Calling the function returned by `anchor(func)`: it runs
`use(context, func, ...args)` keyed by the original `func`. -/
def anchorCall [Inhabited V] (h : Hook α V E) (c : Nat) (a : α) (w : World V) :
    Except (Err E) V × World V :=
  use c h a w

/-- One call of the zero-argument constructor returned by
`factory(func)`: it produces `anchor(clone(func))`, whose underlying key
is the clone; `i` is the fresh identity the allocation gives the clone. -/
def factoryMake (h : Hook α V E) (i : Nat) : Hook α V E :=
  clone i h

/-- Calling the function returned by `buoy(func)`: re-init when the
current value is inherited, otherwise plain `use`. -/
def buoyCall [Inhabited V] (h : Hook α V E) (c : Nat) (a : α) (w : World V) :
    Except (Err E) V × World V :=
  if isInherited w c h then init c h a w else use c h a w

/-- The record returned by `useContext(context)`: closures that apply the
module-level operations to the captured context.  Constructing it is
pure: the source body only creates closures and touches no table. -/
structure ContextApi (α V E : Type) [Inhabited V] where
  context : Nat
  isUsedA : Hook α V E → World V → Bool
  initA : Hook α V E → α → World V → Except (Err E) V × World V
  useA : Hook α V E → α → World V → Except (Err E) V × World V
  getA : Hook α V E → World V → Except (Err E) V × World V
  forkA : Nat → World V → Except (Err E) Nat × World V
  isInheritedA : Hook α V E → World V → Bool

/-- `useContext(context)`. -/
def useContext [Inhabited V] (c : Nat) : ContextApi α V E :=
  ⟨c, fun h w => isUsed w c h, fun h a w => init c h a w,
   fun h a w => use c h a w, fun h w => get c h w,
   fun f w => fork c f w, fun h w => isInherited w c h⟩

/-- The module-level operations as a datatype (arguments folded in, hook
extra arguments curried into the behaviour, so `α := Unit`), used to
state trace invariants such as "`isContext c` stays false as long as no
operation targets `c`".  `opUseCtx` is a bare `useContext(c)` call. -/
inductive Op (V E : Type) where
  | opInit (c : Nat) (h : Hook Unit V E)
  | opUse (c : Nat) (h : Hook Unit V E)
  | opGet (c : Nat) (h : Hook Unit V E)
  | opIsUsed (c : Nat) (h : Hook Unit V E)
  | opIsInherited (c : Nat) (h : Hook Unit V E)
  | opIsContext (c : Nat)
  | opIsForked (c : Nat)
  | opFork (c f : Nat)
  | opUseCtx (c : Nat)

/-- Effect of one operation on the global state.  Reads leave the world
unchanged; `useContext` only builds closures, so it is the identity. -/
def runOp [Inhabited V] : Op V E → World V → World V
  | .opInit c h, w => (init c h () w).2
  | .opUse c h, w => (use c h () w).2
  | .opGet c h, w => (get c h w).2
  | .opIsUsed _ _, w => w
  | .opIsInherited _ _, w => w
  | .opIsContext _, w => w
  | .opIsForked _, w => w
  | .opFork c f, w => ((fork c f w : Except (Err E) Nat × World V)).2
  | .opUseCtx _, w => w

/-- Run a list of operations in order. -/
def runOps [Inhabited V] : List (Op V E) → World V → World V
  | [], w => w
  | op :: rest, w => runOps rest (runOp op w)

/-- Whether an operation can register context `c`: only `init`/`use`
targeted at `c`, or a `fork` with `c` as parent or target. -/
def touches (c : Nat) : Op V E → Bool
  | .opInit x _ => x == c
  | .opUse x _ => x == c
  | .opFork x y => x == c || y == c
  | _ => false

end UseCtx

/-!
The unforkable-registry variant of the engine (`useContext.ts`, the
variant with `contextsUnforkable` and the `unforkables` weak set).  Here
there is no parent chain; `fork` copies the parent's forkable map, and
each context keeps a second, unforkable own map that `fork` never
copies.  `useContext(context)` eagerly registers both maps for the
context, and every public operation goes through `useContext`, so each
embedded operation first ensures both maps exist. -/

namespace UseCtxU

open UseCtx (alookup ainsert containsKey Hook StateMap Err)

/-- Global state of the unforkable-variant module: the forkable
`contexts` map, the `contextsUnforkable` map, the `unforkables` set of
hook ids, and the invocation log. -/
structure WorldU (V : Type) where
  contexts : List (Nat × StateMap V)
  contextsUnforkable : List (Nat × StateMap V)
  unforkables : List Nat
  log : List Nat

/-- `getContextMap` performed by `useContext(context)`: create and
register an empty forkable map when absent. -/
def ensureF (c : Nat) (w : WorldU V) : WorldU V :=
  match alookup w.contexts c with
  | some _ => w
  | none => { w with contexts := ainsert c [] w.contexts }

/-- `getUnforkableContextMap` performed by `useContext(context)`. -/
def ensureU (c : Nat) (w : WorldU V) : WorldU V :=
  match alookup w.contextsUnforkable c with
  | some _ => w
  | none => { w with contextsUnforkable := ainsert c [] w.contextsUnforkable }

/-- The registrations performed by a `useContext(context)` call. -/
def ensure (c : Nat) (w : WorldU V) : WorldU V :=
  ensureU c (ensureF c w)

/-- `unforkables.has(initializer)`. -/
def isUnforkable (w : WorldU V) (hid : Nat) : Bool :=
  w.unforkables.contains hid

/-- `getMap(initializer)`: select the unforkable or forkable own map. -/
def mapFor (w : WorldU V) (c hid : Nat) : StateMap V :=
  if isUnforkable w hid then (alookup w.contextsUnforkable c).getD []
  else (alookup w.contexts c).getD []

/-- Write through `getMap(initializer).set`. -/
def setFor (w : WorldU V) (c hid : Nat) (v : V) : WorldU V :=
  if isUnforkable w hid then
    { w with contextsUnforkable :=
        ainsert c (ainsert hid v ((alookup w.contextsUnforkable c).getD [])) w.contextsUnforkable }
  else
    { w with contexts :=
        ainsert c (ainsert hid v ((alookup w.contexts c).getD [])) w.contexts }

/-- `useContext(c).isUsed(initializer)`. -/
def isUsedU (c : Nat) (h : Hook α V E) (w : WorldU V) : Bool × WorldU V :=
  let w1 := ensure c w
  (containsKey (mapFor w1 c h.hid) h.hid, w1)

/-- `useContext(c).init(initializer, ...args)`. -/
def initU (c : Nat) (h : Hook α V E) (a : α) (w : WorldU V) :
    Except (Err E) V × WorldU V :=
  let w1 := ensure c w
  let w2 := { w1 with log := h.hid :: w1.log }
  match h.fn c a with
  | .error e => (.error (.user e), w2)
  | .ok v => (.ok v, setFor w2 c h.hid v)

/-- `useContext(c).use(initializer, ...args)`. -/
def useU [Inhabited V] (c : Nat) (h : Hook α V E) (a : α) (w : WorldU V) :
    Except (Err E) V × WorldU V :=
  let w1 := ensure c w
  if containsKey (mapFor w1 c h.hid) h.hid then
    (.ok ((alookup (mapFor w1 c h.hid) h.hid).getD default), w1)
  else initU c h a w1

/-- `useContext(c).fork(forkedContext)`: reject a target that already has
a forkable map, else install a copy of the parent's forkable map (the
unforkable map is not copied). -/
def forkU (c f : Nat) (w : WorldU V) : Except (Err E) Nat × WorldU V :=
  let w1 := ensure c w
  if (alookup w1.contexts f).isSome then (.error .inUse, w1)
  else (.ok f, { w1 with contexts := ainsert f ((alookup w1.contexts c).getD []) w1.contexts })

/-- `unforkable(func)`: wrap `func` in a new function object (fresh
identity `i` from the allocator) and add it to the `unforkables` set. -/
def unforkableW (i : Nat) (h : Hook α V E) (w : WorldU V) :
    Hook α V E × WorldU V :=
  (⟨i, fun c a => h.fn c a⟩, { w with unforkables := i :: w.unforkables })

end UseCtxU

/-! Concrete fixtures used by the witnesses and counterexamples. -/

namespace UseCtx

/-- A sample hook of identity 7 that always succeeds with 42. -/
def hOk : Hook Unit Nat Unit := ⟨7, fun _ _ => .ok 42⟩

/-- A sample hook of identity 3 whose initializer always throws. -/
def hFail : Hook Unit Nat Unit := ⟨3, fun _ _ => .error ()⟩

/-- A sample hook of identity 5 returning the context id plus one. -/
def hCtx : Hook Unit Nat Unit := ⟨5, fun c _ => .ok (c + 1)⟩

/-- The empty initial world. -/
def w0 : World Nat := ⟨[], [], []⟩

/-- A world where context 1 owns the value 42 for hook id 7. -/
def wC : World Nat := ⟨[(1, [(7, 42)])], [], [7]⟩

/-- `wC` after `fork 1 2`. -/
def wF : World Nat := ⟨[(1, [(7, 42)]), (2, [])], [(2, 1)], [7]⟩

end UseCtx

namespace UseCtxU

/-- The empty initial world of the unforkable-variant module. -/
def wu0 : WorldU Nat := ⟨[], [], [], []⟩

/-- A sample hook of identity 9 that always succeeds with 11, registered
unforkable (its id is in the `unforkables` set of `wu1`). -/
def hU : UseCtx.Hook Unit Nat Unit := ⟨9, fun _ _ => .ok 11⟩

/-- `wu0` after registering `hU` unforkable and running
`initU 1 hU`: context 1 has the value 11 in its unforkable map. -/
def wu1 : WorldU Nat := ⟨[(1, [])], [(1, [(9, 11)])], [9], [9]⟩

/-- `wu1` after `forkU 1 2`. -/
def wu2 : WorldU Nat := ⟨[(1, []), (2, [])], [(1, [(9, 11)])], [9], [9]⟩

end UseCtxU

/-! General lemmas about the association lists and the ancestor walk. -/

namespace UseCtx

theorem alookup_ainsert_self (l : List (Nat × β)) (k : Nat) (v : β) :
    alookup (ainsert k v l) k = some v := by
  induction l with
  | nil => simp [ainsert, alookup]
  | cons hd tl ih =>
    obtain ⟨k1, v1⟩ := hd
    by_cases hk : k1 = k
    · simp [ainsert, hk, alookup]
    · simp [ainsert, hk, alookup, ih]

theorem alookup_ainsert_ne (l : List (Nat × β)) (k k2 : Nat) (v : β)
    (h : k ≠ k2) : alookup (ainsert k v l) k2 = alookup l k2 := by
  induction l with
  | nil => simp [ainsert, alookup, h]
  | cons hd tl ih =>
    obtain ⟨k1, v1⟩ := hd
    by_cases hk : k1 = k
    · subst hk
      simp [ainsert, alookup, h]
    · by_cases hk2 : k1 = k2
      · simp [ainsert, hk, alookup, hk2, Ne.symm h]
      · simp [ainsert, hk, alookup, hk2, ih]

theorem ainsert_ainsert (l : List (Nat × β)) (k : Nat) (v v2 : β) :
    ainsert k v (ainsert k v2 l) = ainsert k v l := by
  induction l with
  | nil => simp [ainsert]
  | cons hd tl ih =>
    obtain ⟨k1, v1⟩ := hd
    by_cases hk : k1 = k
    · simp [ainsert, hk]
    · simp [ainsert, hk, ih]

theorem registerIfAbsent_parents (w : World V) (c : Nat) :
    (registerIfAbsent w c).parents = w.parents := by
  unfold registerIfAbsent
  cases alookup w.contexts c <;> rfl

theorem registerIfAbsent_log (w : World V) (c : Nat) :
    (registerIfAbsent w c).log = w.log := by
  unfold registerIfAbsent
  cases alookup w.contexts c <;> rfl

theorem alookup_registerIfAbsent_self (w : World V) (c : Nat) :
    alookup (registerIfAbsent w c).contexts c
      = some ((alookup w.contexts c).getD []) := by
  unfold registerIfAbsent
  cases h : alookup w.contexts c with
  | none => simp [alookup_ainsert_self]
  | some m => simp [h]

theorem init_ok (c : Nat) (h : Hook α V E) (a : α) (w : World V) (v : V)
    (hv : h.fn c a = .ok v) :
    init c h a w =
      (.ok v,
       ⟨ainsert c (ainsert h.hid v ((alookup w.contexts c).getD [])) w.contexts,
        w.parents, h.hid :: w.log⟩) := by
  unfold init
  rw [hv]
  simp only [registerIfAbsent_log, registerIfAbsent_parents,
    alookup_registerIfAbsent_self, Option.getD_some]
  unfold registerIfAbsent
  cases hc : alookup w.contexts c with
  | none => simp [ainsert_ainsert]
  | some m => simp

theorem init_err (c : Nat) (h : Hook α V E) (a : α) (w : World V) (e : E)
    (he : h.fn c a = .error e) :
    init c h a w =
      (.error (.user e),
       ⟨(registerIfAbsent w c).contexts, w.parents, h.hid :: w.log⟩) := by
  unfold init
  rw [he]
  simp [registerIfAbsent_log, registerIfAbsent_parents]


theorem containsKey_nil (g : Nat) : containsKey ([] : List (Nat × β)) g = false := rfl

theorem getStatesF_mono_succ (w : World V) (g : Nat) :
    ∀ n c r, getStatesF n w c g = some r → getStatesF (n + 1) w c g = some r := by
  intro n
  induction n with
  | zero => intro c r hr; simp [getStatesF] at hr
  | succ n ih =>
    intro c r hr
    rw [getStatesF] at hr
    rw [getStatesF]
    by_cases hm : containsKey ((alookup w.contexts c).getD []) g
    · simpa [hm] using hr
    · simp only [hm, Bool.false_eq_true, if_false] at hr ⊢
      cases hp : alookup w.parents c with
      | none => rw [hp] at hr; simp at hr
      | some p => rw [hp] at hr; exact ih p r hr

theorem getStatesF_mono (w : World V) (g : Nat) (n m c : Nat) (r : Nat × StateMap V)
    (hle : n ≤ m) (hr : getStatesF n w c g = some r) :
    getStatesF m w c g = some r := by
  obtain ⟨k, rfl⟩ := Nat.exists_eq_add_of_le hle
  induction k with
  | zero => exact hr
  | succ k ih =>
    exact getStatesF_mono_succ w g (n + k) c r (ih (Nat.le_add_right n k))

theorem getStatesF_found (w : World V) (g : Nat) :
    ∀ n x y s, getStatesF n w x g = some (y, s) →
      alookup w.contexts y = some s ∧ containsKey s g = true := by
  intro n
  induction n with
  | zero => intro x y s hr; simp [getStatesF] at hr
  | succ n ih =>
    intro x y s hr
    rw [getStatesF] at hr
    by_cases hm : containsKey ((alookup w.contexts x).getD []) g
    · simp only [hm, if_true, Option.some.injEq, Prod.mk.injEq] at hr
      obtain ⟨rfl, rfl⟩ := hr
      cases hc : alookup w.contexts x with
      | none =>
        rw [hc] at hm
        simp [containsKey, alookup] at hm
      | some m =>
        rw [hc] at hm
        exact ⟨by simp, by simpa using hm⟩
    · simp only [hm, Bool.false_eq_true, if_false] at hr
      cases hp : alookup w.parents x with
      | none => rw [hp] at hr; simp at hr
      | some p => rw [hp] at hr; exact ih p y s hr

theorem getStatesF_own (w : World V) (c g n : Nat) (m : StateMap V)
    (hc : alookup w.contexts c = some m) (hm : containsKey m g = true) :
    getStatesF (n + 1) w c g = some (c, m) := by
  rw [getStatesF, hc]
  simp [hm]

theorem getStatesF_none_first (w : World V) (c g n : Nat)
    (hr : getStatesF (n + 1) w c g = none) :
    containsKey ((alookup w.contexts c).getD []) g = false := by
  by_cases hm : containsKey ((alookup w.contexts c).getD []) g
  · rw [getStatesF] at hr
    simp [hm] at hr
  · simpa using hm

theorem getStatesF_ext (w w2 : World V) (g : Nat)
    (hp : w2.parents = w.parents)
    (hc : ∀ y, (alookup w2.contexts y).getD [] = (alookup w.contexts y).getD []) :
    ∀ n c, getStatesF n w2 c g = getStatesF n w c g := by
  intro n
  induction n with
  | zero => intro c; rfl
  | succ n ih =>
    intro c
    rw [getStatesF]
    conv_rhs => rw [getStatesF]
    rw [hc c, hp]
    by_cases hm : containsKey ((alookup w.contexts c).getD []) g
    · simp [hm]
    · simp only [hm, Bool.false_eq_true, if_false]
      cases hpc : alookup w.parents c with
      | none => rfl
      | some p => exact ih p

theorem getStatesF_register (w : World V) (g x : Nat)
    (hx : alookup w.contexts x = none) (n c : Nat) :
    getStatesF n { w with contexts := ainsert x [] w.contexts } c g
      = getStatesF n w c g := by
  refine getStatesF_ext w { w with contexts := ainsert x [] w.contexts } g rfl ?_ n c
  intro y
  by_cases hxy : x = y
  · subst hxy
    simp [alookup_ainsert_self, hx]
  · rw [alookup_ainsert_ne w.contexts x y [] hxy]

theorem getStatesF_congr (w w2 : World V) (g f : Nat)
    (hpar : ∀ y p, alookup w.parents y = some p → p ≠ f)
    (hctx : ∀ x, x ≠ f → alookup w2.contexts x = alookup w.contexts x)
    (hpar2 : ∀ x, x ≠ f → alookup w2.parents x = alookup w.parents x) :
    ∀ n c, c ≠ f → getStatesF n w2 c g = getStatesF n w c g := by
  intro n
  induction n with
  | zero => intro c _; rfl
  | succ n ih =>
    intro c hcf
    rw [getStatesF]
    conv_rhs => rw [getStatesF]
    rw [hctx c hcf, hpar2 c hcf]
    by_cases hm : containsKey ((alookup w.contexts c).getD []) g
    · simp [hm]
    · simp only [hm, Bool.false_eq_true, if_false]
      cases hpc : alookup w.parents c with
      | none => rfl
      | some p => exact ih p (hpar c p hpc)

theorem getStatesF_none_keyeq (w w2 : World V) (g : Nat)
    (hp : w2.parents = w.parents)
    (hk : ∀ y, containsKey ((alookup w2.contexts y).getD []) g
      = containsKey ((alookup w.contexts y).getD []) g) :
    ∀ n c, getStatesF n w c g = none → getStatesF n w2 c g = none := by
  intro n
  induction n with
  | zero => intro c _; rfl
  | succ n ih =>
    intro c hr
    rw [getStatesF] at hr
    rw [getStatesF, hp, hk c]
    by_cases hm : containsKey ((alookup w.contexts c).getD []) g
    · rw [hm] at hr; simp at hr
    · simp only [hm, Bool.false_eq_true, if_false] at hr ⊢
      cases hpc : alookup w.parents c with
      | none => rfl
      | some p => rw [hpc] at hr; exact ih p hr

/-! Claim theorems. -/

/-- C1: two calls of `use(C, H, args...)` with no intervening
`init(C, H)` return the identical value (the second call returns the
cached value and leaves the world untouched, so reference equality is
preserved), and `H` is invoked at most once across the two calls. -/
theorem use_idempotent_once [Inhabited V] (c : Nat) (h : Hook α V E) (a : α)
    (w w2 : World V) (v : V)
    (h1 : use c h a w = (.ok v, w2)) :
    use c h a w2 = (.ok v, w2) ∧ w2.log.count h.hid ≤ w.log.count h.hid + 1 := by
  unfold use at h1 ⊢
  cases hg : getStates w c h.hid with
  | some r =>
    obtain ⟨x, s⟩ := r
    rw [hg] at h1
    simp only [Prod.mk.injEq] at h1
    obtain ⟨hv, rfl⟩ := h1
    rw [hg]
    exact ⟨congrArg (fun t => (t, w)) hv, Nat.le_succ _⟩
  | none =>
    rw [hg] at h1
    cases hf : h.fn c a with
    | error e =>
      rw [init_err c h a w e hf] at h1
      simp at h1
    | ok v0 =>
      rw [init_ok c h a w v0 hf] at h1
      simp only [Prod.mk.injEq, Except.ok.injEq] at h1
      obtain ⟨rfl, rfl⟩ := h1
      have hm : containsKey
          (ainsert h.hid v0 ((alookup w.contexts c).getD [])) h.hid = true := by
        simp [containsKey, alookup_ainsert_self]
      have hgs : getStates
          (⟨ainsert c (ainsert h.hid v0 ((alookup w.contexts c).getD [])) w.contexts,
            w.parents, h.hid :: w.log⟩ : World V) c h.hid
          = some (c, ainsert h.hid v0 ((alookup w.contexts c).getD [])) := by
        unfold getStates
        exact getStatesF_own _ c h.hid w.parents.length _ (alookup_ainsert_self ..) hm
      rw [hgs]
      constructor
      · simp [alookup_ainsert_self]
      · simp [List.count_cons]

/-- C1 witness: a fresh context materializes 42 for `hOk` once; the
second `use` returns the identical value without a second invocation. -/
theorem use_idempotent_once_witness :
    use 1 hOk () ((use 1 hOk () w0).2) = (.ok 42, (use 1 hOk () w0).2) ∧
      ((use 1 hOk () w0).2).log.count 7 ≤ w0.log.count 7 + 1 :=
  use_idempotent_once 1 hOk () w0 (use 1 hOk () w0).2 42 (by
    show use 1 hOk () w0 = (.ok 42, (use 1 hOk () w0).2)
    rfl)

/-- C5: `get(C, H)` returns the value reachable from `C` via the
ancestor walk when one exists, and otherwise throws the
"Not yet initialized" error; in both cases it leaves the world (and so
every state map, and the invocation log) unchanged and never invokes
`H`. -/
theorem get_existing_or_throws [Inhabited V] (c : Nat) (h : Hook α V E)
    (w : World V) :
    ((get c h w).2 = w) ∧
    (∀ x s, getStates w c h.hid = some (x, s) →
      ∃ v, alookup s h.hid = some v ∧ get c h w = (.ok v, w)) ∧
    (getStates w c h.hid = none →
      get c h w = (.error .notInit, w) ∧
        Err.message (.notInit : Err E) = "Not yet initialized") := by
  refine ⟨?_, ?_, ?_⟩
  · unfold get
    cases getStates w c h.hid with
    | none => rfl
    | some r => rfl
  · intro x s hg
    have hfound := getStatesF_found w h.hid _ c x s hg
    have hsome : (alookup s h.hid).isSome := hfound.2
    obtain ⟨v, hv⟩ := Option.isSome_iff_exists.mp hsome
    refine ⟨v, hv, ?_⟩
    unfold get
    rw [hg]
    show ((Except.ok ((alookup s h.hid).getD default) : Except (Err E) V), w)
      = (Except.ok v, w)
    rw [hv]
    rfl
  · intro hg
    unfold get
    rw [hg]
    exact ⟨rfl, rfl⟩

/-- C5 witness: `get` returns the materialized 42 in `wC` and throws
"Not yet initialized" on the untouched context 2 of the empty world. -/
theorem get_existing_or_throws_witness :
    get 1 hOk wC = (.ok 42, wC) ∧ (get 2 hOk w0).1 = .error .notInit := by
  constructor
  · obtain ⟨v, hv, hg⟩ := (get_existing_or_throws 1 hOk wC).2.1 1 [(7, 42)] rfl
    have h42 : alookup [(7, 42)] hOk.hid = some 42 := rfl
    rw [h42] at hv
    rw [(Option.some.inj hv).symm] at hg
    exact hg
  · exact congrArg Prod.fst ((get_existing_or_throws 2 hOk w0).2.2 rfl).1

/-- C7: `isInherited(C, H)` is true exactly when a value for `H` is
reachable from `C` but does not live in `C`'s own state map — i.e. it
lives in an ancestor's own map; it is false when `H` is not used at all
and when `C` itself owns the entry. -/
theorem isInherited_iff_ancestor_owned (w : World V) (c : Nat)
    (h : Hook α V E) :
    isInherited w c h
      = (isUsed w c h && !containsKey ((alookup w.contexts c).getD []) h.hid) := by
  unfold isInherited isUsed
  cases hg : getStates w c h.hid with
  | none => simp
  | some r =>
    obtain ⟨x, s⟩ := r
    have hfound := getStatesF_found w h.hid _ c x s hg
    by_cases hxc : x = c
    · subst hxc
      simp [hfound.1, hfound.2]
    · have hown : containsKey ((alookup w.contexts c).getD []) h.hid = false := by
        by_cases ho : containsKey ((alookup w.contexts c).getD []) h.hid
        · have hfirst : getStates w c h.hid
              = some (c, (alookup w.contexts c).getD []) := by
            unfold getStates
            rw [getStatesF]
            simp [ho]
          rw [hg] at hfirst
          simp only [Option.some.injEq, Prod.mk.injEq] at hfirst
          exact absurd hfirst.1 hxc
        · simpa using ho
      simp [hxc, hown]

/-- C3: `fork` rejects misuse with distinct errors checked in order: a
self-fork throws the "cannot be the same" error (even if the target is
registered), a target that is already registered throws the "already in
use" error, and after `fork(C, D)` a later `fork(D, C)` throws; the two
messages are distinct. -/
theorem fork_misuse_errors (c f d : Nat) (w wd : World V) :
    ((fork c c w : Except (Err E) Nat × World V) = (.error .sameCtx, w)) ∧
    (c ≠ f → isContext w f = true →
      (fork c f w : Except (Err E) Nat × World V) = (.error .inUse, w)) ∧
    (c ≠ d → (fork c d w : Except (Err E) Nat × World V) = (.ok d, wd) →
      (fork d c wd : Except (Err E) Nat × World V) = (.error .inUse, wd)) ∧
    (∀ p, (∀ x q, alookup w.parents x = some q → isContext w x = true) →
      alookup w.parents f = some p → c ≠ f →
      (fork c f w : Except (Err E) Nat × World V) = (.error .inUse, w)) ∧
    Err.message (.sameCtx : Err E) ≠ Err.message (.inUse : Err E) := by
  refine ⟨?_, ?_, ?_, ?_, ?_⟩
  · unfold fork
    simp
  · intro hne hctx
    unfold fork
    simp [hne, hctx]
  · intro hne hok
    unfold fork at hok
    rw [if_neg hne] at hok
    by_cases hctxd : isContext w d
    · simp [hctxd] at hok
    · rw [if_neg hctxd] at hok
      simp only [Prod.mk.injEq] at hok
      obtain ⟨-, hwd⟩ := hok
      have hctxc : isContext wd c = true := by
        rw [← hwd]
        unfold isContext
        rw [alookup_ainsert_ne _ d c [] (Ne.symm hne)]
        split
        · rename_i hwc
          exact hwc
        · simp [alookup_ainsert_self]
      unfold fork
      rw [if_neg (fun hdc => hne hdc.symm), if_pos hctxc]
  · intro p hinv hpf hne
    have hctx := hinv f p hpf
    unfold fork
    simp [hne, hctx]
  · show ("The parent context and the forked context cannot be the same" : String)
      ≠ "The forked context is already in use"
    decide

/-- C3 witness: self-fork and re-fork of an existing association both
throw, at the concrete worlds `wC` and `wF`. -/
theorem fork_misuse_errors_witness :
    (fork 1 1 wC : Except (Err Unit) Nat × World Nat) = (.error .sameCtx, wC) ∧
    (fork 2 1 wF : Except (Err Unit) Nat × World Nat) = (.error .inUse, wF) :=
  ⟨(fork_misuse_errors 1 2 2 wC wF).1,
   (fork_misuse_errors 1 2 2 wC wF).2.2.1 (by decide) (by rfl)⟩

/-- C6 (amended): when an initializer throws inside `init` (or inside
`use` falling through to `init`), the failure propagates unmodified and
no state-map entry is written — every `getStates` lookup in the whole
world is unchanged; however, if the context had no states map yet, an
empty one is registered by the failed call (observable through
`isContext`, see the counterexample). -/
theorem init_failure_atomic [Inhabited V] (c : Nat) (h : Hook α V E) (a : α)
    (w : World V) (e0 : E) (hf : h.fn c a = .error e0) :
    (init c h a w).1 = .error (.user e0) ∧
    (∀ x g, getStates (init c h a w).2 x g = getStates w x g) ∧
    (getStates w c h.hid = none → use c h a w = init c h a w) := by
  refine ⟨?_, ?_, ?_⟩
  · rw [init_err c h a w e0 hf]
  · intro x g
    rw [init_err c h a w e0 hf]
    have hmaps : ∀ y,
        (alookup (registerIfAbsent w c).contexts y).getD ([] : StateMap V)
          = (alookup w.contexts y).getD [] := by
      intro y
      unfold registerIfAbsent
      cases hc : alookup w.contexts c with
      | some m => rfl
      | none =>
        by_cases hcy : c = y
        · subst hcy
          simp [alookup_ainsert_self, hc]
        · rw [alookup_ainsert_ne w.contexts c y [] hcy]
    unfold getStates
    exact getStatesF_ext w
      ⟨(registerIfAbsent w c).contexts, w.parents, h.hid :: w.log⟩ g rfl hmaps _ x
  · intro hg
    unfold use
    rw [hg]

/-- C6 witness: a throwing initializer on the empty world propagates its
exception and leaves every lookup unchanged. -/
theorem init_failure_atomic_witness :
    (init 3 hFail () w0).1 = .error (.user ()) ∧
      getStates (init 3 hFail () w0).2 3 3 = getStates w0 3 3 := by
  have h := init_failure_atomic 3 hFail () w0 () rfl
  exact ⟨h.1, h.2.1 3 3⟩

/-- C6 counterexample: the claim "the observable state of C is unchanged
by the failed call" is false: a failed `init` on a fresh context
registers an empty states map first, so `isContext` flips from false to
true even though no entry for the initializer was written. -/
theorem init_failure_observable_cx :
    (init 3 hFail () w0).1 = .error (.user ()) ∧
    isUsed (init 3 hFail () w0).2 3 hFail = false ∧
    isContext w0 3 = false ∧
    isContext (init 3 hFail () w0).2 3 = true := by
  exact ⟨rfl, rfl, rfl, rfl⟩

theorem ainsert_length_absent (l : List (Nat × β)) (k : Nat) (v : β)
    (hk : alookup l k = none) : (ainsert k v l).length = l.length + 1 := by
  induction l with
  | nil => rfl
  | cons hd tl ih =>
    obtain ⟨k1, v1⟩ := hd
    by_cases h1 : k1 = k
    · rw [alookup, if_pos h1] at hk
      exact absurd hk (by simp)
    · rw [alookup, if_neg h1] at hk
      rw [ainsert, if_neg h1]
      simp [ih hk]

/-- C2: fork isolation.  With `F` a fresh object forked from `C`:
every key reachable from `C` before the fork is still reachable from `C`
and becomes reachable from `F` (with the same owning map) after the
fork; a value materialized in `F` by `init` or `use` changes no lookup
of `C`; and an overriding `init` on `F` lands in `F`'s own map. -/
theorem fork_isolation (V E α : Type) [Inhabited V] (c f : Nat) (w w1 : World V)
    (hcf : c ≠ f)
    (hf1 : alookup w.contexts f = none)
    (hf0 : alookup w.parents f = none)
    (hf2 : ∀ y p, alookup w.parents y = some p → p ≠ f)
    (hfork : (fork c f w : Except (Err E) Nat × World V) = (.ok f, w1)) :
    (∀ g r, getStates w c g = some r → getStates w1 c g = some r) ∧
    (∀ g r, getStates w c g = some r → getStates w1 f g = some r) ∧
    (∀ (h : Hook α V E) (a : α) (g : Nat),
      getStates (init f h a w1).2 c g = getStates w1 c g ∧
      getStates (use f h a w1).2 c g = getStates w1 c g) ∧
    (∀ (h : Hook α V E) (a : α) (v : V) (w2 : World V),
      init f h a w1 = (.ok v, w2) →
      ∃ m, getStates w2 f h.hid = some (f, m) ∧ alookup m h.hid = some v) ∧
    (∀ (h h2 : Hook α V E) (a : α),
      isUsed (init f h a w1).2 c h2 = isUsed w1 c h2 ∧
      ((get c h2 (init f h a w1).2).1 : Except (Err E) V) = (get c h2 w1).1) := by
  have hctxf : ¬ isContext w f = true := by
    simp [isContext, hf1]
  unfold fork at hfork
  rw [if_neg hcf, if_neg hctxf] at hfork
  simp only [Prod.mk.injEq] at hfork
  obtain ⟨-, hw1⟩ := hfork
  obtain ⟨wb, hbp, hb3, hb4, hw1b⟩ :
      ∃ wb : World V, wb.parents = w.parents ∧
        (∀ y, (alookup wb.contexts y).getD ([] : StateMap V)
            = (alookup w.contexts y).getD []) ∧
        alookup wb.contexts f = none ∧
        w1 = ⟨ainsert f [] wb.contexts, ainsert f c w.parents, w.log⟩ := by
    by_cases hwc : isContext w c = true
    · rw [if_pos hwc] at hw1
      exact ⟨w, rfl, fun y => rfl, hf1, hw1.symm⟩
    · rw [if_neg hwc] at hw1
      have hcnone : alookup w.contexts c = none :=
        Option.not_isSome_iff_eq_none.mp hwc
      refine ⟨{ w with contexts := ainsert c [] w.contexts }, rfl, ?_, ?_,
        hw1.symm⟩
      · intro y
        by_cases hcy : c = y
        · subst hcy
          simp [alookup_ainsert_self, hcnone]
        · rw [alookup_ainsert_ne w.contexts c y [] hcy]
      · rw [alookup_ainsert_ne w.contexts c f [] hcf]
        exact hf1
  have hc1 : alookup w1.contexts f = some [] := by
    rw [hw1b]
    exact alookup_ainsert_self ..
  have hp1 : w1.parents = ainsert f c w.parents := by
    rw [hw1b]
  have hlen : (ainsert f c w.parents).length = w.parents.length + 1 :=
    ainsert_length_absent w.parents f c hf0
  have hpar1 : ∀ y p, alookup (ainsert f c w.parents) y = some p → p ≠ f := by
    intro y p hy
    by_cases hyf : f = y
    · subst hyf
      rw [alookup_ainsert_self] at hy
      cases hy
      exact fun hq => hcf hq
    · rw [alookup_ainsert_ne w.parents f y c hyf] at hy
      exact hf2 y p hy
  have hcongr : ∀ (g n x : Nat), x ≠ f →
      getStatesF n w1 x g = getStatesF n w x g := by
    intro g n x hx
    have h1 : getStatesF n w1 x g = getStatesF n wb x g := by
      refine getStatesF_congr wb w1 g f ?_ ?_ ?_ n x hx
      · intro y p hy
        rw [hbp] at hy
        exact hf2 y p hy
      · intro z hz
        rw [hw1b]
        exact alookup_ainsert_ne wb.contexts f z [] (Ne.symm hz)
      · intro z hz
        rw [hw1b, hbp]
        exact alookup_ainsert_ne w.parents f z c (Ne.symm hz)
    exact h1.trans (getStatesF_ext w wb g hbp hb3 n x)
  have hmain : ∀ g r, getStates w c g = some r →
      getStatesF (w.parents.length + 1) w1 c g = some r := by
    intro g r hgr
    unfold getStates at hgr
    rw [hcongr g (w.parents.length + 1) c hcf]
    exact hgr
  have hinit : ∀ (h : Hook α V E) (a : α) (g : Nat),
      getStates (init f h a w1).2 c g = getStates w1 c g := by
    intro h a g
    cases hfa : h.fn f a with
    | error e =>
      rw [init_err f h a w1 e hfa]
      have hra : registerIfAbsent w1 f = w1 := by
        unfold registerIfAbsent
        rw [hc1]
      rw [hra]
      exact getStatesF_ext w1 ⟨w1.contexts, w1.parents, h.hid :: w1.log⟩ g rfl
        (fun y => rfl) _ c
    | ok v =>
      rw [init_ok f h a w1 v hfa]
      unfold getStates
      refine getStatesF_congr w1
        ⟨ainsert f (ainsert h.hid v ((alookup w1.contexts f).getD [])) w1.contexts,
         w1.parents, h.hid :: w1.log⟩ g f ?_ ?_ ?_ _ c hcf
      · intro y p hy
        rw [hp1] at hy
        exact hpar1 y p hy
      · intro z hz
        exact alookup_ainsert_ne w1.contexts f z _ (Ne.symm hz)
      · intro z _
        rfl
  refine ⟨?_, ?_, ?_, ?_, ?_⟩
  · intro g r hgr
    unfold getStates
    rw [hp1, hlen]
    exact getStatesF_mono w1 g (w.parents.length + 1) (w.parents.length + 1 + 1)
      c r (Nat.le_succ _) (hmain g r hgr)
  · intro g r hgr
    unfold getStates
    rw [hp1, hlen]
    show getStatesF (Nat.succ (w.parents.length + 1)) w1 f g = some r
    rw [getStatesF, hc1]
    simp only [Option.getD_some, containsKey_nil, Bool.false_eq_true, if_false]
    have hpf : alookup w1.parents f = some c := by
      rw [hp1]
      exact alookup_ainsert_self ..
    rw [hpf]
    exact hmain g r hgr
  · intro h a g
    refine ⟨hinit h a g, ?_⟩
    unfold use
    cases hu : getStates w1 f h.hid with
    | some r => rfl
    | none => exact hinit h a g
  · intro h a v w2 hiv
    cases hfa : h.fn f a with
    | error e =>
      rw [init_err f h a w1 e hfa] at hiv
      simp at hiv
    | ok v0 =>
      rw [init_ok f h a w1 v0 hfa] at hiv
      simp only [Prod.mk.injEq, Except.ok.injEq] at hiv
      obtain ⟨rfl, hw2⟩ := hiv
      refine ⟨ainsert h.hid v0 ((alookup w1.contexts f).getD []), ?_,
        alookup_ainsert_self ..⟩
      rw [← hw2]
      unfold getStates
      exact getStatesF_own _ f h.hid _ _ (alookup_ainsert_self ..)
        (by simp [containsKey, alookup_ainsert_self])
  · intro h h2 a
    constructor
    · unfold isUsed
      rw [hinit h a h2.hid]
    · unfold get
      rw [hinit h a h2.hid]
      cases getStates w1 c h2.hid with
      | none => rfl
      | some r =>
        obtain ⟨x, s⟩ := r
        rfl

/-- C2 witness: fork context 1 (owning 42 for hook 7) into fresh 2; the
value is visible from the fork, and an `init` on the fork does not
change the parent's lookups. -/
theorem fork_isolation_witness :
    getStates wF 2 7 = some (1, [(7, 42)]) ∧
    getStates (init 2 hCtx () wF).2 1 5 = getStates wF 1 5 :=
  ⟨(fork_isolation Nat Unit Unit 1 2 wC wF (by decide) rfl rfl
      (fun y p hy => by simp [alookup] at hy) rfl).2.1 7 (1, [(7, 42)]) rfl,
   ((fork_isolation Nat Unit Unit 1 2 wC wF (by decide) rfl rfl
      (fun y p hy => by simp [alookup] at hy) rfl).2.2.1 hCtx () 5).1⟩

theorem containsKey_ainsert_ne (l : List (Nat × β)) (k k2 : Nat) (v : β)
    (h : k ≠ k2) : containsKey (ainsert k v l) k2 = containsKey l k2 := by
  unfold containsKey
  rw [alookup_ainsert_ne l k k2 v h]

theorem use_fresh [Inhabited V] (c : Nat) (h : Hook α V E) (a : α)
    (w : World V) (v : V)
    (hg : getStates w c h.hid = none) (hfn : h.fn c a = .ok v) :
    use c h a w =
      (.ok v,
       ⟨ainsert c (ainsert h.hid v ((alookup w.contexts c).getD [])) w.contexts,
        w.parents, h.hid :: w.log⟩) := by
  unfold use
  rw [hg]
  exact init_ok c h a w v hfn

/-- C8: two hooks produced by separate calls of the constructor returned
by `factory(fn)` carry the fresh identities the allocator gave their
clones, and calling them on the same context materializes and caches
independent values: each call invokes the cloned initializer (the log
records both identities) and the two cache entries coexist under the two
distinct keys. -/
theorem factory_instances_independent (V E α : Type) [Inhabited V]
    (hk0 : Hook α V E) (i1 i2 c : Nat) (a1 a2 : α) (v1 v2 : V) (w : World V)
    (hne : i1 ≠ i2)
    (hfn1 : hk0.fn c a1 = .ok v1)
    (hfn2 : hk0.fn c a2 = .ok v2)
    (hu1 : getStates w c i1 = none)
    (hu2 : getStates w c i2 = none) :
    (factoryMake hk0 i1).hid = i1 ∧ (factoryMake hk0 i2).hid = i2 ∧
    anchorCall (factoryMake hk0 i1) c a1 w =
      (.ok v1,
       ⟨ainsert c (ainsert i1 v1 ((alookup w.contexts c).getD [])) w.contexts,
        w.parents, i1 :: w.log⟩) ∧
    anchorCall (factoryMake hk0 i2) c a2
      ⟨ainsert c (ainsert i1 v1 ((alookup w.contexts c).getD [])) w.contexts,
       w.parents, i1 :: w.log⟩ =
      (.ok v2,
       ⟨ainsert c
          (ainsert i2 v2 (ainsert i1 v1 ((alookup w.contexts c).getD [])))
          (ainsert c (ainsert i1 v1 ((alookup w.contexts c).getD [])) w.contexts),
        w.parents, i2 :: i1 :: w.log⟩) ∧
    alookup (ainsert i2 v2 (ainsert i1 v1 ((alookup w.contexts c).getD []))) i1
      = some v1 ∧
    alookup (ainsert i2 v2 (ainsert i1 v1 ((alookup w.contexts c).getD []))) i2
      = some v2 := by
  have hg2 : getStates
      (⟨ainsert c (ainsert i1 v1 ((alookup w.contexts c).getD [])) w.contexts,
        w.parents, i1 :: w.log⟩ : World V) c i2 = none := by
    refine getStatesF_none_keyeq w
      ⟨ainsert c (ainsert i1 v1 ((alookup w.contexts c).getD [])) w.contexts,
       w.parents, i1 :: w.log⟩ i2 rfl ?_ _ c hu2
    intro y
    by_cases hcy : c = y
    · subst hcy
      rw [alookup_ainsert_self]
      show containsKey (ainsert i1 v1 ((alookup w.contexts c).getD [])) i2
        = containsKey ((alookup w.contexts c).getD []) i2
      exact containsKey_ainsert_ne _ i1 i2 v1 hne
    · rw [alookup_ainsert_ne _ c y _ hcy]
  refine ⟨rfl, rfl, use_fresh c (factoryMake hk0 i1) a1 w v1 hu1 hfn1, ?_, ?_,
    alookup_ainsert_self ..⟩
  · have h2 := use_fresh c (factoryMake hk0 i2) a2
      ⟨ainsert c (ainsert i1 v1 ((alookup w.contexts c).getD [])) w.contexts,
       w.parents, i1 :: w.log⟩ v2 hg2 hfn2
    rw [show anchorCall (factoryMake hk0 i2) c a2
        ⟨ainsert c (ainsert i1 v1 ((alookup w.contexts c).getD [])) w.contexts,
         w.parents, i1 :: w.log⟩
        = use c (factoryMake hk0 i2) a2
        ⟨ainsert c (ainsert i1 v1 ((alookup w.contexts c).getD [])) w.contexts,
         w.parents, i1 :: w.log⟩ from rfl, h2]
    rw [show alookup
        (ainsert c (ainsert i1 v1 ((alookup w.contexts c).getD [])) w.contexts) c
        = some (ainsert i1 v1 ((alookup w.contexts c).getD []))
      from alookup_ainsert_self ..]
    rfl
  · rw [alookup_ainsert_ne _ i2 i1 v2 (Ne.symm hne)]
    exact alookup_ainsert_self ..

/-- C8 witness: two factory instances with fresh identities 100 and 101
cache 42 independently in context 1 of the empty world. -/
theorem factory_instances_independent_witness :
    anchorCall (factoryMake hOk 100) 1 () w0
      = (.ok 42, ⟨[(1, [(100, 42)])], [], [100]⟩) ∧
    anchorCall (factoryMake hOk 101) 1 () ⟨[(1, [(100, 42)])], [], [100]⟩
      = (.ok 42, ⟨[(1, [(100, 42), (101, 42)])], [], [101, 100]⟩) ∧
    alookup [(100, 42), (101, 42)] 100 = some 42 ∧
    alookup [(100, 42), (101, 42)] 101 = some 42 := by
  have h := factory_instances_independent Nat Unit Unit hOk 100 101 1 () ()
    42 42 w0 (by decide) rfl rfl rfl rfl
  exact ⟨h.2.2.1, h.2.2.2.1, h.2.2.2.2.1, h.2.2.2.2.2⟩

theorem use_hit [Inhabited V] (c : Nat) (h : Hook α V E) (a : α) (w : World V)
    (x : Nat) (s : StateMap V) (v : V)
    (hg : getStates w c h.hid = some (x, s)) (hv : alookup s h.hid = some v) :
    use c h a w = (.ok v, w) := by
  unfold use
  rw [hg]
  have hval : Except.ok ((alookup s h.hid).getD default)
      = (Except.ok v : Except (Err E) V) := by
    rw [hv]
    rfl
  exact congrArg (fun t => (t, w)) hval

theorem isInherited_own (w : World V) (c : Nat) (h : Hook α V E)
    (s : StateMap V) (hg : getStates w c h.hid = some (c, s)) :
    isInherited w c h = false := by
  unfold isInherited
  rw [hg]
  simp

/-- C9: after a successful call of the buoy-wrapped hook on a context,
the context owns the state itself (`isInherited` is false), a repeated
call returns the memoized own value without changing the world or
re-running the initializer, and when the value was inherited the call
re-ran the initializer (logged) and installed a fresh own entry in the
context's own state map. -/
theorem buoy_call_owns (V E α : Type) [Inhabited V] (h : Hook α V E)
    (c : Nat) (a : α) (v : V) (w w2 : World V)
    (hcall : buoyCall h c a w = (.ok v, w2)) :
    isInherited w2 c h = false ∧
    buoyCall h c a w2 = (.ok v, w2) ∧
    (isInherited w c h = true →
      w2.log = h.hid :: w.log ∧
      ∃ m, alookup w2.contexts c = some m ∧ alookup m h.hid = some v) := by
  unfold buoyCall at hcall
  by_cases hinh : isInherited w c h = true
  · rw [if_pos hinh] at hcall
    cases hfa : h.fn c a with
    | error e =>
      rw [init_err c h a w e hfa] at hcall
      simp at hcall
    | ok v0 =>
      rw [init_ok c h a w v0 hfa] at hcall
      simp only [Prod.mk.injEq, Except.ok.injEq] at hcall
      obtain ⟨rfl, hw2⟩ := hcall
      subst hw2
      have hgs : getStates
          (⟨ainsert c (ainsert h.hid v0 ((alookup w.contexts c).getD []))
              w.contexts, w.parents, h.hid :: w.log⟩ : World V) c h.hid
          = some (c, ainsert h.hid v0 ((alookup w.contexts c).getD [])) :=
        getStatesF_own _ c h.hid w.parents.length _ (alookup_ainsert_self ..)
          (by simp [containsKey, alookup_ainsert_self])
      refine ⟨isInherited_own _ c h _ hgs, ?_,
        fun _ => ⟨rfl, ainsert h.hid v0 ((alookup w.contexts c).getD []),
          alookup_ainsert_self .., alookup_ainsert_self ..⟩⟩
      unfold buoyCall
      rw [isInherited_own _ c h _ hgs]
      simp only [Bool.false_eq_true, if_false]
      exact use_hit c h a _ c _ v0 hgs (alookup_ainsert_self ..)
  · rw [if_neg hinh] at hcall
    unfold use at hcall
    cases hg : getStates w c h.hid with
    | none =>
      rw [hg] at hcall
      cases hfa : h.fn c a with
      | error e =>
        rw [init_err c h a w e hfa] at hcall
        simp at hcall
      | ok v0 =>
        rw [init_ok c h a w v0 hfa] at hcall
        simp only [Prod.mk.injEq, Except.ok.injEq] at hcall
        obtain ⟨rfl, hw2⟩ := hcall
        subst hw2
        have hgs : getStates
            (⟨ainsert c (ainsert h.hid v0 ((alookup w.contexts c).getD []))
                w.contexts, w.parents, h.hid :: w.log⟩ : World V) c h.hid
            = some (c, ainsert h.hid v0 ((alookup w.contexts c).getD [])) :=
          getStatesF_own _ c h.hid w.parents.length _ (alookup_ainsert_self ..)
            (by simp [containsKey, alookup_ainsert_self])
        refine ⟨isInherited_own _ c h _ hgs, ?_, fun himp => absurd himp hinh⟩
        unfold buoyCall
        rw [isInherited_own _ c h _ hgs]
        simp only [Bool.false_eq_true, if_false]
        exact use_hit c h a _ c _ v0 hgs (alookup_ainsert_self ..)
    | some r =>
      obtain ⟨x, s⟩ := r
      rw [hg] at hcall
      simp only [Prod.mk.injEq] at hcall
      obtain ⟨hv, rfl⟩ := hcall
      have hxc : x = c := by
        unfold isInherited at hinh
        rw [hg] at hinh
        simpa using hinh
      rw [hxc] at hg
      refine ⟨isInherited_own w c h s hg, ?_, fun himp => absurd himp hinh⟩
      unfold buoyCall
      rw [isInherited_own w c h s hg]
      simp only [Bool.false_eq_true, if_false]
      unfold use
      rw [hg]
      exact congrArg (fun t => (t, w)) hv

/-- C9 witness: on the forked context 2 of `wF` the value 42 for hook 7
is inherited; the buoy call re-initializes it into context 2's own map
and a repeated call is memoized. -/
theorem buoy_call_owns_witness :
    isInherited (⟨[(1, [(7, 42)]), (2, [(7, 42)])], [(2, 1)], [7, 7]⟩ : World Nat)
        2 hOk = false ∧
    buoyCall hOk 2 () ⟨[(1, [(7, 42)]), (2, [(7, 42)])], [(2, 1)], [7, 7]⟩
      = (.ok 42, ⟨[(1, [(7, 42)]), (2, [(7, 42)])], [(2, 1)], [7, 7]⟩) := by
  have h := buoy_call_owns Nat Unit Unit hOk 2 () 42 wF
    ⟨[(1, [(7, 42)]), (2, [(7, 42)])], [(2, 1)], [7, 7]⟩ (by rfl)
  exact ⟨h.1, h.2.1⟩

theorem alookup_registerIfAbsent_ne (w : World V) (x c : Nat) (hxc : x ≠ c) :
    alookup (registerIfAbsent w x).contexts c = alookup w.contexts c := by
  unfold registerIfAbsent
  cases hx : alookup w.contexts x with
  | some m => rfl
  | none => exact alookup_ainsert_ne w.contexts x c [] hxc

theorem init_contexts_ne (x c : Nat) (h : Hook α V E) (a : α) (w : World V)
    (hxc : x ≠ c) :
    alookup (init x h a w).2.contexts c = alookup w.contexts c := by
  cases hfa : h.fn x a with
  | error e =>
    rw [init_err x h a w e hfa]
    exact alookup_registerIfAbsent_ne w x c hxc
  | ok v =>
    rw [init_ok x h a w v hfa]
    exact alookup_ainsert_ne w.contexts x c _ hxc

theorem use_contexts_ne [Inhabited V] (x c : Nat) (h : Hook α V E) (a : α)
    (w : World V) (hxc : x ≠ c) :
    alookup (use x h a w).2.contexts c = alookup w.contexts c := by
  unfold use
  cases hg : getStates w x h.hid with
  | none => exact init_contexts_ne x c h a w hxc
  | some r =>
    obtain ⟨y, s⟩ := r
    rfl

theorem get_world [Inhabited V] (c : Nat) (h : Hook α V E) (w : World V) :
    (get c h w).2 = w := by
  unfold get
  cases hg : getStates w c h.hid with
  | none => rfl
  | some r =>
    obtain ⟨y, s⟩ := r
    rfl

theorem fork_contexts_ne (a b c : Nat) (w : World V) (ha : a ≠ c) (hb : b ≠ c) :
    alookup ((fork a b w : Except (Err E) Nat × World V)).2.contexts c
      = alookup w.contexts c := by
  unfold fork
  by_cases hab : a = b
  · rw [if_pos hab]
  · rw [if_neg hab]
    by_cases hctxb : isContext w b
    · rw [if_pos hctxb]
    · rw [if_neg hctxb]
      dsimp only
      rw [alookup_ainsert_ne _ b c [] hb]
      split
      · rfl
      · exact alookup_ainsert_ne w.contexts a c [] ha

theorem runOp_isContext_ne [Inhabited V] (c : Nat) (op : Op V E) (w : World V)
    (hop : touches c op = false) (hw : isContext w c = false) :
    isContext (runOp op w) c = false := by
  cases op with
  | opInit x h =>
    have hxc : x ≠ c := by simpa [touches] using hop
    simp only [runOp, isContext]
    rw [init_contexts_ne x c h () w hxc]
    exact hw
  | opUse x h =>
    have hxc : x ≠ c := by simpa [touches] using hop
    simp only [runOp, isContext]
    rw [use_contexts_ne x c h () w hxc]
    exact hw
  | opGet x h =>
    simp only [runOp, isContext]
    rw [get_world x h w]
    exact hw
  | opIsUsed x h => exact hw
  | opIsInherited x h => exact hw
  | opIsContext x => exact hw
  | opIsForked x => exact hw
  | opFork x y =>
    have hxy : x ≠ c ∧ y ≠ c := by
      constructor
      · intro hx
        subst hx
        simp [touches] at hop
      · intro hy
        subst hy
        simp [touches] at hop
    simp only [runOp, isContext]
    rw [fork_contexts_ne x y c w hxy.1 hxy.2]
    exact hw
  | opUseCtx x => exact hw

/-- C10 (amended): a bare `useContext(c)` call performs no registration,
and `isContext c` stays false under any sequence of operations of which
none targets `c` by `init`/`use` and none forks with `c`; `isContext c`
becomes true after `init` on `c` (even when the initializer throws — see
the counterexample), after a `use` on `c` that materializes a state, and
after a successful fork with `c` as parent or as target. -/
theorem isContext_lifecycle (V E : Type) [Inhabited V] (c : Nat) :
    (∀ w : World V, runOp (Op.opUseCtx c : Op V E) w = w) ∧
    (∀ ops : List (Op V E), ∀ w : World V, isContext w c = false →
      (∀ op ∈ ops, touches c op = false) →
      isContext (runOps ops w) c = false) ∧
    (∀ (h : Hook Unit V E) (w : World V), isContext (init c h () w).2 c = true) ∧
    (∀ (h : Hook Unit V E) (w : World V), getStates w c h.hid = none →
      isContext (use c h () w).2 c = true) ∧
    (∀ (d : Nat) (w w2 : World V),
      (fork c d w : Except (Err E) Nat × World V) = (.ok d, w2) →
      isContext w2 c = true) ∧
    (∀ (p : Nat) (w w2 : World V),
      (fork p c w : Except (Err E) Nat × World V) = (.ok c, w2) →
      isContext w2 c = true) := by
  have hinitTrue : ∀ (h2 : Hook Unit V E) (w : World V),
      isContext (init c h2 () w).2 c = true := by
    intro h2 w
    unfold isContext
    cases hfa : h2.fn c () with
    | error e =>
      rw [init_err c h2 () w e hfa]
      dsimp only
      rw [alookup_registerIfAbsent_self]
      rfl
    | ok v =>
      rw [init_ok c h2 () w v hfa]
      dsimp only
      rw [alookup_ainsert_self]
      rfl
  refine ⟨fun w => rfl, ?_, hinitTrue, ?_, ?_, ?_⟩
  · intro ops
    induction ops with
    | nil =>
      intro w hw _
      exact hw
    | cons op rest ih =>
      intro w hw hops
      exact ih (runOp op w)
        (runOp_isContext_ne c op w (hops op (by simp)) hw)
        (fun o ho => hops o (by simp [ho]))
  · intro h w hg
    unfold use
    rw [hg]
    exact hinitTrue h w
  · intro d w w2 hf
    unfold fork at hf
    by_cases hcd : c = d
    · rw [if_pos hcd] at hf
      simp at hf
    · rw [if_neg hcd] at hf
      by_cases hctxd : isContext w d
      · rw [if_pos hctxd] at hf
        simp at hf
      · rw [if_neg hctxd] at hf
        simp only [Prod.mk.injEq] at hf
        obtain ⟨-, hw2⟩ := hf
        rw [← hw2]
        unfold isContext
        dsimp only
        rw [alookup_ainsert_ne _ d c [] (fun hdc => hcd hdc.symm)]
        split
        · rename_i hwc
          exact hwc
        · rw [alookup_ainsert_self]
          rfl
  · intro p w w2 hf
    unfold fork at hf
    by_cases hpc : p = c
    · rw [if_pos hpc] at hf
      simp at hf
    · rw [if_neg hpc] at hf
      by_cases hctxc : isContext w c
      · rw [if_pos hctxc] at hf
        simp at hf
      · rw [if_neg hctxc] at hf
        simp only [Prod.mk.injEq] at hf
        obtain ⟨-, hw2⟩ := hf
        rw [← hw2]
        unfold isContext
        dsimp only
        rw [alookup_ainsert_self]
        rfl

/-- C10 witness: a bare `useContext 5`, plus `init`/`fork`/reads on other
contexts, leave `isContext 5` false from the empty world; an `init` on 5
then registers it. -/
theorem isContext_lifecycle_witness :
    isContext (runOps [Op.opUseCtx 5, Op.opInit 1 hOk, Op.opFork 1 2,
      (Op.opIsUsed 5 hOk : Op Nat Unit), Op.opGet 5 hCtx] w0) 5 = false ∧
    isContext (init 5 hOk () w0).2 5 = true := by
  refine ⟨(isContext_lifecycle Nat Unit 5).2.1 _ w0 rfl ?_,
    (isContext_lifecycle Nat Unit 5).2.2.1 hOk w0⟩
  intro op hop
  fin_cases hop <;> rfl

/-- C10 counterexample: the claim as stated is false — `isContext(c)` can
become true with no state ever materialized in `c` and no fork involving
`c`: an `init` whose initializer throws registers the empty states map
for `c` before the failure. -/
theorem useContext_registration_cx :
    (init 0 hFail () w0).1 = .error (.user ()) ∧
    isUsed (init 0 hFail () w0).2 0 hFail = false ∧
    isForked (init 0 hFail () w0).2 0 = false ∧
    isContext w0 0 = false ∧
    isContext (init 0 hFail () w0).2 0 = true :=
  ⟨rfl, rfl, rfl, rfl, rfl⟩

end UseCtx

namespace UseCtxU

open UseCtx (alookup ainsert containsKey Hook StateMap Err alookup_ainsert_self
  alookup_ainsert_ne)

theorem ensureF_contextsUnforkable (c : Nat) (w : WorldU V) :
    (ensureF c w).contextsUnforkable = w.contextsUnforkable := by
  unfold ensureF
  cases alookup w.contexts c <;> rfl

theorem ensureF_unforkables (c : Nat) (w : WorldU V) :
    (ensureF c w).unforkables = w.unforkables := by
  unfold ensureF
  cases alookup w.contexts c <;> rfl

theorem ensureU_contexts (c : Nat) (w : WorldU V) :
    (ensureU c w).contexts = w.contexts := by
  unfold ensureU
  cases alookup w.contextsUnforkable c <;> rfl

theorem ensureU_unforkables (c : Nat) (w : WorldU V) :
    (ensureU c w).unforkables = w.unforkables := by
  unfold ensureU
  cases alookup w.contextsUnforkable c <;> rfl

theorem ensure_unforkables (c : Nat) (w : WorldU V) :
    (ensure c w).unforkables = w.unforkables := by
  unfold ensure
  rw [ensureU_unforkables, ensureF_unforkables]

theorem ensureU_cu_ne (c x : Nat) (w : WorldU V) (hxc : x ≠ c) :
    alookup (ensureU c w).contextsUnforkable x
      = alookup w.contextsUnforkable x := by
  unfold ensureU
  cases hcu : alookup w.contextsUnforkable c with
  | some m => rfl
  | none => exact alookup_ainsert_ne w.contextsUnforkable c x [] (fun hq => hxc hq.symm)

theorem ensure_cu_ne (c x : Nat) (w : WorldU V) (hxc : x ≠ c) :
    alookup (ensure c w).contextsUnforkable x
      = alookup w.contextsUnforkable x := by
  unfold ensure
  rw [ensureU_cu_ne c x _ hxc, ensureF_contextsUnforkable]

theorem ensureU_cu_self_getD (c : Nat) (w : WorldU V) :
    (alookup (ensureU c w).contextsUnforkable c).getD ([] : StateMap V)
      = (alookup w.contextsUnforkable c).getD [] := by
  unfold ensureU
  cases hcu : alookup w.contextsUnforkable c with
  | some m => simp [hcu]
  | none => simp [hcu, alookup_ainsert_self]

theorem ensure_cu_self_getD (c : Nat) (w : WorldU V) :
    (alookup (ensure c w).contextsUnforkable c).getD ([] : StateMap V)
      = (alookup w.contextsUnforkable c).getD [] := by
  unfold ensure
  rw [ensureU_cu_self_getD, ensureF_contextsUnforkable]

theorem ensureF_contexts_self (c : Nat) (w : WorldU V) :
    (alookup (ensureF c w).contexts c).isSome = true := by
  unfold ensureF
  cases hc : alookup w.contexts c with
  | some m => simp [hc]
  | none => simp [alookup_ainsert_self]

theorem ensure_contexts_self (c : Nat) (w : WorldU V) :
    (alookup (ensure c w).contexts c).isSome = true := by
  unfold ensure
  rw [ensureU_contexts]
  exact ensureF_contexts_self c w

/-- C4: in the unforkable-registry variant, if `H` is registered
unforkable and has a materialized value in `C`, then immediately after a
successful `F = fork(C)` into a fresh target, `isUsed(F, H)` is false:
`fork` copies only the forkable map, and the unforkable own map of the
fresh fork starts empty, so unforkable state is never inherited. -/
theorem unforkable_excluded_after_fork (V E α : Type) (c f : Nat)
    (h : Hook α V E) (w w1 w2 : WorldU V)
    (hu : isUnforkable w h.hid = true)
    (hmat : isUsedU c h w = (true, w1))
    (hfu : alookup w.contextsUnforkable f = none)
    (hfork : (forkU c f w1 : Except (Err E) Nat × WorldU V) = (.ok f, w2)) :
    (isUsedU f h w2).1 = false := by
  have hw1 : ensure c w = w1 := congrArg Prod.snd hmat
  unfold forkU at hfork
  by_cases hcond : (alookup (ensure c w1).contexts f).isSome = true
  · rw [if_pos hcond] at hfork
    simp at hfork
  · rw [if_neg hcond] at hfork
    simp only [Prod.mk.injEq] at hfork
    obtain ⟨-, hw2⟩ := hfork
    have hfc : f ≠ c := by
      intro hfc
      subst hfc
      exact hcond (ensure_contexts_self f w1)
    have hw2cu : w2.contextsUnforkable = (ensure c w1).contextsUnforkable := by
      rw [← hw2]
    have hw2u : w2.unforkables = w.unforkables := by
      rw [← hw2]
      show (ensure c w1).unforkables = w.unforkables
      rw [ensure_unforkables, ← hw1, ensure_unforkables]
    have hfu2 : alookup w2.contextsUnforkable f = none := by
      rw [hw2cu, ensure_cu_ne c f w1 hfc, ← hw1, ensure_cu_ne c f w hfc]
      exact hfu
    unfold isUsedU
    show containsKey (mapFor (ensure f w2) f h.hid) h.hid = false
    unfold mapFor
    have huf : isUnforkable (ensure f w2) h.hid = true := by
      unfold isUnforkable
      rw [ensure_unforkables, hw2u]
      exact hu
    rw [if_pos huf]
    rw [ensure_cu_self_getD, hfu2]
    rfl

end UseCtxU

/-- C4 witness: hook 9 registered unforkable with value 11 materialized
in context 1 of `wu1`; after forking into fresh context 2 the fork sees
no materialized value for it. -/
theorem unforkable_excluded_after_fork_witness :
    (UseCtxU.isUsedU 2 UseCtxU.hU UseCtxU.wu2).1 = false :=
  UseCtxU.unforkable_excluded_after_fork Nat Unit Unit 1 2 UseCtxU.hU
    UseCtxU.wu1 UseCtxU.wu1 UseCtxU.wu2 rfl rfl rfl rfl
